import Mathlib

/-!
Verification development for the prover job lifecycle engine of the
zksync-era prover: a shallow embedding of the `witness_inputs_fri` and
`proof_compression_jobs_fri` DAL operations
(`fri_witness_generator_dal/basic.rs`, `fri_proof_compressor_dal.rs`),
the leaf-aggregation chunking step
(`witness_generator/src/rounds/leaf_aggregation/mod.rs`) and the
scheduler finalize step (`witness_generator/src/rounds/scheduler/artifacts.rs`).

Tables are lists of rows in physical order; SQL `UPDATE ... RETURNING`
is a single scan that updates matching rows and collects them; machine
integer casts (`u32 as i32`, `u64 as i32`, `as i64`) are made explicit.
-/

namespace ZkProver

/-- Job status values stored in the `status` TEXT column.  The string
encodings used by the SQL are `queued`, `in_progress`, `successful`,
`failed`, `sent_to_server`, `skipped`. -/
inductive JobStatus where
  | queued
  | inProgress
  | successful
  | failed
  | sentToServer
  | skipped
deriving DecidableEq, Repr

/-- Rust `as i32` narrowing cast applied to an unsigned integer
(`u32 as i32` or `u64 as i32`): keep the low 32 bits and reinterpret
as a twos-complement value. -/
def wrap32 (n : Nat) : Int :=
  if n % 2 ^ 32 < 2 ^ 31 then ((n % 2 ^ 32 : Nat) : Int)
  else ((n % 2 ^ 32 : Nat) : Int) - 2 ^ 32

/-- One row of the `witness_inputs_fri` table.  `l1Batch` is the BIGINT
`l1_batch_number` column, `chainId` the INTEGER `chain_id` column;
`attempts` and `priority` default to 0 on insert. -/
structure WitnessRow where
  l1Batch : Int
  chainId : Int
  blobUrl : String
  protocolVersion : Int
  protocolVersionPatch : Int
  status : JobStatus
  attempts : Nat
  priority : Int
  createdAt : Nat
  updatedAt : Nat
  processingStartedAt : Option Nat
  pickedBy : Option String
  timeTaken : Option Nat
  errorMsg : Option String
deriving DecidableEq, Repr

/-- One row of the `proof_compression_jobs_fri` table. -/
structure CompressionRow where
  l1Batch : Int
  chainId : Int
  friProofBlobUrl : String
  l1ProofBlobUrl : Option String
  protocolVersion : Int
  protocolVersionPatch : Int
  status : JobStatus
  attempts : Nat
  priority : Int
  createdAt : Nat
  updatedAt : Nat
  processingStartedAt : Option Nat
  pickedBy : Option String
  timeTaken : Option Nat
  errorMsg : Option String
deriving DecidableEq, Repr

/-- Condition `processing_started_at <= NOW() - interval`: a NULL timestamp
compares as unknown, i.e. the row does not match. -/
def timedOut (timeout now : Nat) : Option Nat → Bool
  | some s => decide (s + timeout ≤ now)
  | none => false

/-! ## `FriBasicWitnessGeneratorDal` (fri_witness_generator_dal/basic.rs) -/

/-- Embeds `save_witness_inputs`: INSERT with
`ON CONFLICT (l1_batch_number, chain_id) DO NOTHING`.  The batch number
is bound as `raw_batch_number() as i64` (zero-extension of a `u32`),
the chain id as `raw_chain_id() as i32`, the protocol minor and patch
as `as i32`. -/
def saveWitnessInputs (now b chain : Nat) (url : String) (minor patch : Nat)
    (t : List WitnessRow) : List WitnessRow :=
  if ∃ r ∈ t, r.l1Batch = (b : Int) ∧ r.chainId = wrap32 chain then t
  else
    t ++ [{ l1Batch := (b : Int), chainId := wrap32 chain, blobUrl := url,
            protocolVersion := wrap32 minor, protocolVersionPatch := wrap32 patch,
            status := .queued, attempts := 0, priority := 0,
            createdAt := now, updatedAt := now, processingStartedAt := none,
            pickedBy := none, timeTaken := none, errorMsg := none }]

/-- Eligibility filter of the claim subquery: `status = queued AND
protocol_version = $1 AND protocol_version_patch = $3`. -/
def wEligible (minor patch : Nat) (r : WitnessRow) : Prop :=
  r.status = .queued ∧ r.protocolVersion = wrap32 minor ∧
    r.protocolVersionPatch = wrap32 patch

instance (minor patch : Nat) (r : WitnessRow) :
    Decidable (wEligible minor patch r) := by
  unfold wEligible; infer_instance

/-- Order `ORDER BY priority DESC, created_at ASC`: `r` sorts strictly before
`b`. -/
def wPrecedes (r b : WitnessRow) : Prop :=
  b.priority < r.priority ∨ (r.priority = b.priority ∧ r.createdAt < b.createdAt)

instance (r b : WitnessRow) : Decidable (wPrecedes r b) := by
  unfold wPrecedes; infer_instance

/-- The subquery `SELECT l1_batch_number ... ORDER BY priority DESC,
created_at ASC LIMIT 1`: the first eligible row in the sort order
(earliest physical row on ties). -/
def selectBasic (minor patch : Nat) : List WitnessRow → Option WitnessRow
  | [] => none
  | r :: rs =>
    if wEligible minor patch r then
      match selectBasic minor patch rs with
      | none => some r
      | some b => if wPrecedes b r then some b else some r
    else selectBasic minor patch rs

/-- The SET clause of the claim UPDATE. -/
def wClaimUpdate (picked : String) (now : Nat) (r : WitnessRow) : WitnessRow :=
  { r with status := .inProgress, attempts := r.attempts + 1,
           updatedAt := now, processingStartedAt := some now,
           pickedBy := some picked }

/-- Embeds `get_next_basic_circuit_witness_job`: one UPDATE whose WHERE clause
is `l1_batch_number = (subquery ... FOR UPDATE SKIP LOCKED)` — note it
matches on `l1_batch_number` alone, not on `(l1_batch_number,
chain_id)`.  `RETURNING chain_id, l1_batch_number` followed by
`fetch_optional` yields the first updated row. -/
def getNextBasicJob (minor patch : Nat) (picked : String) (now : Nat)
    (t : List WitnessRow) : Option (Int × Int) × List WitnessRow :=
  match selectBasic minor patch t with
  | none => (none, t)
  | some b =>
    let t' := t.map fun r =>
      if r.l1Batch = b.l1Batch then wClaimUpdate picked now r else r
    ((t'.filter fun r => decide (r.l1Batch = b.l1Batch)).head?.map
        fun r => (r.chainId, r.l1Batch),
      t')

/-- Embeds `set_status_for_basic_witness_job`: UPDATE guarded by
`status != successful` only.  Takes an arbitrary `FriWitnessJobStatus`
and records no error message. -/
def setStatusForBasicWitnessJob (st : JobStatus) (b chain : Nat) (now : Nat)
    (t : List WitnessRow) : List WitnessRow :=
  t.map fun r =>
    if r.l1Batch = (b : Int) ∧ r.chainId = wrap32 chain ∧ r.status ≠ .successful
    then { r with status := st, updatedAt := now } else r

/-- Embeds `mark_witness_job_as_successful`: the WHERE clause binds the batch
number as `raw_batch_number() as i32` (a narrowing cast of the `u32`),
unlike the `as i64` used on insert. -/
def markWitnessJobAsSuccessful (b chain : Nat) (tt : Nat) (now : Nat)
    (t : List WitnessRow) : List WitnessRow :=
  t.map fun r =>
    if r.l1Batch = wrap32 b ∧ r.chainId = wrap32 chain
    then { r with status := .successful, updatedAt := now, timeTaken := some tt }
    else r

/-- The WHERE predicate of `requeue_stuck_basic_jobs`. -/
def wStuck (timeout maxAtt now : Nat) (r : WitnessRow) : Prop :=
  (r.status = .inProgress ∧ timedOut timeout now r.processingStartedAt ∧
    r.attempts < maxAtt) ∨
  (r.status = .failed ∧ r.attempts < maxAtt)

instance (timeout maxAtt now : Nat) (r : WitnessRow) :
    Decidable (wStuck timeout maxAtt now r) := by
  unfold wStuck; infer_instance

/-- The SET clause of the stuck-job requeue UPDATE: back to `queued`,
`priority` bumped, `attempts` untouched. -/
def wRequeueUpdate (now : Nat) (r : WitnessRow) : WitnessRow :=
  { r with status := .queued, updatedAt := now,
           processingStartedAt := some now, priority := r.priority + 1 }

/-- Embeds `requeue_stuck_basic_jobs`: one UPDATE, returning the
`(l1_batch_number, chain_id)` keys of the affected rows in table order. -/
def requeueStuckBasicJobs (timeout maxAtt now : Nat) :
    List WitnessRow → List (Int × Int) × List WitnessRow
  | [] => ([], [])
  | r :: rs =>
    let (ks, rs') := requeueStuckBasicJobs timeout maxAtt now rs
    if wStuck timeout maxAtt now r then
      ((r.l1Batch, r.chainId) :: ks, wRequeueUpdate now r :: rs')
    else (ks, r :: rs')

/-- Embeds `requeue_stuck_witness_inputs_jobs_for_batch`: manual requeue of the rows of
one batch at or above `max_attempts`; `attempts` is untouched. -/
def requeueStuckWitnessInputsJobsForBatch (b chain maxAtt now : Nat) :
    List WitnessRow → List (Int × Int) × List WitnessRow
  | [] => ([], [])
  | r :: rs =>
    let (ks, rs') := requeueStuckWitnessInputsJobsForBatch b chain maxAtt now rs
    if r.l1Batch = (b : Int) ∧ r.chainId = wrap32 chain ∧ maxAtt ≤ r.attempts ∧
        (r.status = .inProgress ∨ r.status = .failed) then
      ((r.l1Batch, r.chainId) :: ks, wRequeueUpdate now r :: rs')
    else (ks, r :: rs')

/-! ## `FriProofCompressorDal` (fri_proof_compressor_dal.rs) -/

/-- Embeds `insert_proof_compression_job`: INSERT with
`ON CONFLICT (l1_batch_number) DO NOTHING` — the conflict target is the
batch number alone, not `(l1_batch_number, chain_id)`.  The batch is
bound via `i64::from(block_number.0)`, the chain via
`chain_id.as_u64() as i32`. -/
def insertProofCompressionJob (now b chain : Nat) (friUrl : String)
    (minor patch : Nat) (t : List CompressionRow) : List CompressionRow :=
  if ∃ r ∈ t, r.l1Batch = (b : Int) then t
  else
    t ++ [{ l1Batch := (b : Int), chainId := wrap32 chain, friProofBlobUrl := friUrl,
            l1ProofBlobUrl := none,
            protocolVersion := wrap32 minor, protocolVersionPatch := wrap32 patch,
            status := .queued, attempts := 0, priority := 0,
            createdAt := now, updatedAt := now, processingStartedAt := none,
            pickedBy := none, timeTaken := none, errorMsg := none }]

/-- Eligibility filter of the compression claim subquery. -/
def cEligible (minor patch : Nat) (r : CompressionRow) : Prop :=
  r.status = .queued ∧ r.protocolVersion = wrap32 minor ∧
    r.protocolVersionPatch = wrap32 patch

instance (minor patch : Nat) (r : CompressionRow) :
    Decidable (cEligible minor patch r) := by
  unfold cEligible; infer_instance

/-- Order `ORDER BY priority DESC, created_at ASC` for compression rows. -/
def cPrecedes (r b : CompressionRow) : Prop :=
  b.priority < r.priority ∨ (r.priority = b.priority ∧ r.createdAt < b.createdAt)

instance (r b : CompressionRow) : Decidable (cPrecedes r b) := by
  unfold cPrecedes; infer_instance

/-- The compression claim subquery `SELECT l1_batch_number, chain_id ...
ORDER BY priority DESC, created_at ASC LIMIT 1`. -/
def selectCompression (minor patch : Nat) :
    List CompressionRow → Option CompressionRow
  | [] => none
  | r :: rs =>
    if cEligible minor patch r then
      match selectCompression minor patch rs with
      | none => some r
      | some b => if cPrecedes b r then some b else some r
    else selectCompression minor patch rs

/-- The SET clause of the compression claim UPDATE. -/
def cClaimUpdate (picked : String) (now : Nat) (r : CompressionRow) :
    CompressionRow :=
  { r with status := .inProgress, attempts := r.attempts + 1,
           updatedAt := now, processingStartedAt := some now,
           pickedBy := some picked }

/-- Embeds `get_next_proof_compression_job`: one UPDATE whose WHERE clause is
`(l1_batch_number, chain_id) = (subquery ... FOR UPDATE SKIP LOCKED)`,
`RETURNING l1_batch_number, chain_id`; `fetch_optional` yields the
first updated row as `(chain_id, l1_batch_number)`. -/
def getNextCompressionJob (minor patch : Nat) (picked : String) (now : Nat)
    (t : List CompressionRow) : Option (Int × Int) × List CompressionRow :=
  match selectCompression minor patch t with
  | none => (none, t)
  | some b =>
    let t' := t.map fun r =>
      if r.l1Batch = b.l1Batch ∧ r.chainId = b.chainId
      then cClaimUpdate picked now r else r
    ((t'.filter fun r => decide (r.l1Batch = b.l1Batch ∧ r.chainId = b.chainId)).head?.map
        fun r => (r.chainId, r.l1Batch),
      t')

/-- Embeds `mark_proof_compression_job_successful`: UPDATE with no status
guard; sets `status`, `updated_at`, `time_taken`, `l1_proof_blob_url`
on every row matching `(l1_batch_number, chain_id)`. -/
def markProofCompressionJobSuccessful (b chain : Nat) (tt : Nat) (url : String)
    (now : Nat) (t : List CompressionRow) : List CompressionRow :=
  t.map fun r =>
    if r.l1Batch = (b : Int) ∧ r.chainId = wrap32 chain
    then { r with status := .successful, updatedAt := now,
                  timeTaken := some tt, l1ProofBlobUrl := some url }
    else r

/-- Embeds `mark_proof_compression_job_failed`: UPDATE guarded by
`status != successful AND status != sent_to_server`; records the
error message. -/
def markProofCompressionJobFailed (err : String) (b chain : Nat) (now : Nat)
    (t : List CompressionRow) : List CompressionRow :=
  t.map fun r =>
    if r.l1Batch = (b : Int) ∧ r.chainId = wrap32 chain ∧
        r.status ≠ .successful ∧ r.status ≠ .sentToServer
    then { r with status := .failed, errorMsg := some err, updatedAt := now }
    else r

/-- The WHERE predicate of the compression `requeue_stuck_jobs`. -/
def cStuck (timeout maxAtt now : Nat) (r : CompressionRow) : Prop :=
  (r.status = .inProgress ∧ timedOut timeout now r.processingStartedAt ∧
    r.attempts < maxAtt) ∨
  (r.status = .failed ∧ r.attempts < maxAtt)

instance (timeout maxAtt now : Nat) (r : CompressionRow) :
    Decidable (cStuck timeout maxAtt now r) := by
  unfold cStuck; infer_instance

/-- The SET clause of the compression stuck-job requeue UPDATE;
`attempts` is untouched. -/
def cRequeueUpdate (now : Nat) (r : CompressionRow) : CompressionRow :=
  { r with status := .queued, updatedAt := now,
           processingStartedAt := some now, priority := r.priority + 1 }

/-- Embeds `requeue_stuck_jobs` (compression): one UPDATE returning the keys
of the affected rows in table order. -/
def requeueStuckJobs (timeout maxAtt now : Nat) :
    List CompressionRow → List (Int × Int) × List CompressionRow
  | [] => ([], [])
  | r :: rs =>
    let (ks, rs') := requeueStuckJobs timeout maxAtt now rs
    if cStuck timeout maxAtt now r then
      ((r.l1Batch, r.chainId) :: ks, cRequeueUpdate now r :: rs')
    else (ks, r :: rs')

/-- Embeds `requeue_stuck_jobs_for_batch` (compression): manual requeue of the rows of
one batch at or above `max_attempts`; it sets
the error text to Manually requeued and `attempts = 2`. -/
def requeueStuckJobsForBatch (b chain maxAtt now : Nat) :
    List CompressionRow → List (Int × Int) × List CompressionRow
  | [] => ([], [])
  | r :: rs =>
    let (ks, rs') := requeueStuckJobsForBatch b chain maxAtt now rs
    if r.l1Batch = (b : Int) ∧ r.chainId = wrap32 chain ∧ maxAtt ≤ r.attempts ∧
        (r.status = .inProgress ∨ r.status = .failed) then
      ((r.l1Batch, r.chainId) :: ks,
        { r with status := .queued, errorMsg := some "Manually requeued",
                 attempts := 2, updatedAt := now,
                 processingStartedAt := some now,
                 priority := r.priority + 1 } :: rs')
    else (ks, r :: rs')

/-! ## Aggregation Tree Builder (leaf_aggregation/mod.rs) -/

/-- Modelled from the spec: `split_recursion_queue` (imported by
`leaf_aggregation/mod.rs` from the `zkevm_test_harness` crate, whose
source is not part of this tree) splits the recursion queue into
contiguous chunks of at most the configured size, preserving the
original order; the `num_items` of each chunk is the length of its slice. -/
def splitRecursionQueue (size : Nat) (q : List α) : List (List α) :=
  match q with
  | [] => []
  | x :: xs =>
    if h : size = 0 then []
    else (x :: xs).take size :: splitRecursionQueue size ((x :: xs).drop size)
termination_by q.length
decreasing_by
  simp only [List.length_drop]
  exact Nat.sub_lt (Nat.succ_pos _) (Nat.pos_of_ne_zero h)

/-- The proof-identifier assignment loop of
`LeafAggregation::process_job`: for each queue chunk, take the next
`num_items` identifiers from the shared iterator. -/
def assignProofIds : List (List α) → List Nat → List (List Nat)
  | [], _ => []
  | q :: rest, ids => ids.take q.length :: assignProofIds rest (ids.drop q.length)

/-! ## Scheduler finalize (scheduler/artifacts.rs) -/

/-- One row of the `prover_jobs_fri` table, reduced to the fields the
finalize step writes.  Modelled from the spec: `insert_prover_job` (its
DAL is not part of this tree) creates a `queued` row for the given
batch, circuit and aggregation round. -/
structure ProverJobRow where
  l1Batch : Int
  chainId : Int
  circuitId : Nat
  aggregationRound : Nat
  status : JobStatus
  blobUrl : String
deriving DecidableEq, Repr

/-- One row of the scheduler witness-generator table, reduced to the
fields the finalize step touches.  Modelled from the spec:
`mark_scheduler_job_as_successful` (its DAL is not part of this tree)
transitions the scheduler job of the batch to `successful` and records the
elapsed time. -/
structure SchedulerJobRow where
  l1Batch : Int
  chainId : Int
  status : JobStatus
  timeTaken : Option Nat
deriving DecidableEq, Repr

/-- The persistent state the scheduler finalize step touches: the
scheduler witness-job table, the prover-job table of the next round, and the
set of object-store keys written so far. -/
structure SchedulerState where
  schedulerJobs : List SchedulerJobRow
  proverJobs : List ProverJobRow
  store : List (Int × Int)
deriving DecidableEq, Repr

/-- Modelled from the spec: `insert_prover_job` is an idempotent create
of a `queued` prover-job row. -/
def insertProverJob (chain b circuitId aggRound : Nat) (url : String)
    (t : List ProverJobRow) : List ProverJobRow :=
  if ∃ r ∈ t, r.l1Batch = (b : Int) ∧ r.chainId = wrap32 chain ∧
      r.circuitId = circuitId ∧ r.aggregationRound = aggRound then t
  else
    t ++ [{ l1Batch := (b : Int), chainId := wrap32 chain, circuitId := circuitId,
            aggregationRound := aggRound, status := .queued, blobUrl := url }]

/-- Modelled from the spec: `mark_scheduler_job_as_successful`. -/
def markSchedulerJobAsSuccessful (chain b tt : Nat)
    (t : List SchedulerJobRow) : List SchedulerJobRow :=
  t.map fun r =>
    if r.l1Batch = (b : Int) ∧ r.chainId = wrap32 chain
    then { r with status := .successful, timeTaken := some tt } else r

/-- The scheduler-circuit identifier inserted by `save_to_database`
(`ZkSyncRecursionLayerStorageType::SchedulerCircuit as u8`). -/
def schedulerCircuitId : Nat := 1

/-- The aggregation-round tag of the inserted next-round job
(`AggregationRound::Scheduler`). -/
def schedulerRound : Nat := 4

/-- Embeds `Scheduler::save_to_database`: one transaction that inserts the
next-round prover job and marks the scheduler witness job successful;
both writes commit together. -/
def schedulerSaveToDatabase (chain b tt : Nat) (blobUrl : String)
    (s : SchedulerState) : SchedulerState :=
  { s with
    proverJobs := insertProverJob chain b schedulerCircuitId schedulerRound
      blobUrl s.proverJobs,
    schedulerJobs := markSchedulerJobAsSuccessful chain b tt s.schedulerJobs }

/-- Embeds `Scheduler::save_to_bucket`: writes the scheduler circuit to the
object store under the key of the batch and returns the blob url. -/
def schedulerSaveToBucket (chain b : Nat) (s : SchedulerState) :
    String × SchedulerState :=
  ("scheduler_blob", { s with store := (wrap32 chain, (b : Int)) :: s.store })

/-- Modelled from the spec: a round-N+1 claim transitions one queued
prover-job row (here: the row at index `i`, if queued) to in-progress;
which row the claim query picks is irrelevant to the visibility
invariant, so the index is left arbitrary. -/
def claimProverAt (i : Nat) (t : List ProverJobRow) : List ProverJobRow :=
  match t.get? i with
  | some r => if r.status = .queued then t.set i { r with status := .inProgress } else t
  | none => t

/-- One event visible to the scheduler finalize model.  `finalize` is
the full round-N completion (artifact write, then the completion
transaction); `crashAfterBucket` is a worker that dies between the
artifact write and the database transaction; `claimProver` is a
round-N+1 claim attempt that marks the prover row at the given index
in-progress if it is queued (the selection strategy of the claim query is
irrelevant here, so the index is arbitrary).  Modelled from the spec:
the worker driver invokes `save_to_bucket` before `save_to_database`,
and only for a batch whose scheduler job row exists. -/
inductive SchedOp where
  | finalize (chain b tt : Nat)
  | crashAfterBucket (chain b : Nat)
  | claimProver (i : Nat) (picked : String)
deriving DecidableEq, Repr

/-- Apply one scheduler-model event. -/
def schedApply (s : SchedulerState) : SchedOp → SchedulerState
  | .finalize chain b tt =>
    if ∃ r ∈ s.schedulerJobs, r.l1Batch = (b : Int) ∧ r.chainId = wrap32 chain then
      let (url, s') := schedulerSaveToBucket chain b s
      schedulerSaveToDatabase chain b tt url s'
    else s
  | .crashAfterBucket chain b => (schedulerSaveToBucket chain b s).2
  | .claimProver i _ =>
    { s with proverJobs := claimProverAt i s.proverJobs }

/-- Run a sequence of scheduler-model events. -/
def schedRun (ops : List SchedOp) (s : SchedulerState) : SchedulerState :=
  ops.foldl schedApply s

/-- A next-round job for `(chain, b)` is claimable when a queued
prover-job row with that key exists. -/
def proverClaimable (s : SchedulerState) (chain b : Nat) : Prop :=
  ∃ r ∈ s.proverJobs, r.l1Batch = (b : Int) ∧ r.chainId = wrap32 chain ∧
    r.status = .queued

instance (s : SchedulerState) (chain b : Nat) :
    Decidable (proverClaimable s chain b) := by
  unfold proverClaimable; infer_instance

/-! ## Claim traces -/

/-- A sequence of `get_next_basic_circuit_witness_job` calls applied in
serialization order (each call is a single atomic UPDATE, so concurrent
calls serialize); collects the returned keys. -/
def runBasicClaims : List (Nat × Nat × String × Nat) → List WitnessRow →
    List (Int × Int) × List WitnessRow
  | [], t => ([], t)
  | (minor, patch, picked, now) :: ops, t =>
    let (res, t') := getNextBasicJob minor patch picked now t
    let (ks, t'') := runBasicClaims ops t'
    (match res with | some k => k :: ks | none => ks, t'')

/-- A sequence of `get_next_proof_compression_job` calls applied in
serialization order; collects the returned keys. -/
def runCompressionClaims : List (Nat × Nat × String × Nat) → List CompressionRow →
    List (Int × Int) × List CompressionRow
  | [], t => ([], t)
  | (minor, patch, picked, now) :: ops, t =>
    let (res, t') := getNextCompressionJob minor patch picked now t
    let (ks, t'') := runCompressionClaims ops t'
    (match res with | some k => k :: ks | none => ks, t'')

/-- Operations the attempts counter of a compression job is exposed to:
claims and automatic stuck-job sweeps. -/
inductive CompOp where
  | claim (minor patch : Nat) (picked : String) (now : Nat)
  | sweep (timeout maxAtt now : Nat)
deriving DecidableEq, Repr

/-- Apply one operation to the compression table. -/
def compStep (t : List CompressionRow) : CompOp → List CompressionRow
  | .claim minor patch picked now => (getNextCompressionJob minor patch picked now t).2
  | .sweep timeout maxAtt now => (requeueStuckJobs timeout maxAtt now t).2

/-- Run a sequence of claim / sweep operations on the compression table. -/
def runCompOps (ops : List CompOp) (t : List CompressionRow) : List CompressionRow :=
  ops.foldl compStep t

/-! ## Concrete sample rows -/

/-- A concrete `witness_inputs_fri` row for protocol version 24.0. -/
def mkWitnessRow (b c : Int) (st : JobStatus) (att : Nat) : WitnessRow :=
  { l1Batch := b, chainId := c, blobUrl := "u",
    protocolVersion := 24, protocolVersionPatch := 0,
    status := st, attempts := att, priority := 0,
    createdAt := 0, updatedAt := 0, processingStartedAt := some 0,
    pickedBy := none, timeTaken := none, errorMsg := none }

/-- A concrete `proof_compression_jobs_fri` row for protocol version 24.0. -/
def mkCompressionRow (b c : Int) (st : JobStatus) (att : Nat) : CompressionRow :=
  { l1Batch := b, chainId := c, friProofBlobUrl := "f", l1ProofBlobUrl := none,
    protocolVersion := 24, protocolVersionPatch := 0,
    status := st, attempts := att, priority := 0,
    createdAt := 0, updatedAt := 0, processingStartedAt := some 0,
    pickedBy := none, timeTaken := none, errorMsg := none }

/-- The WHERE predicate of the manual per-batch requeues. -/
def manualStuck (b chain maxAtt : Nat) (batch cid : Int) (st : JobStatus)
    (att : Nat) : Prop :=
  batch = (b : Int) ∧ cid = wrap32 chain ∧ maxAtt ≤ att ∧
    (st = .inProgress ∨ st = .failed)

instance (b chain maxAtt : Nat) (batch cid : Int) (st : JobStatus) (att : Nat) :
    Decidable (manualStuck b chain maxAtt batch cid st att) := by
  unfold manualStuck; infer_instance

/-- The visibility invariant: whenever a next-round prover job for a
batch is claimable, the scheduler witness job of that batch is already
`successful`. -/
def schedInv (s : SchedulerState) : Prop :=
  ∀ chain b : Nat, proverClaimable s chain b →
    ∃ r ∈ s.schedulerJobs,
      r.l1Batch = (b : Int) ∧ r.chainId = wrap32 chain ∧ r.status = .successful

/-! ## Helper lemmas -/

theorem map_eq_self_of_forall {α : Type} (l : List α) (f : α → α)
    (h : ∀ x ∈ l, f x = x) : l.map f = l := by
  conv_rhs => rw [← List.map_id l]
  exact List.map_congr_left h

theorem wrap32_small {n : Nat} (h : n < 2 ^ 31) : wrap32 n = (n : Int) := by
  unfold wrap32
  rw [Nat.mod_eq_of_lt (lt_trans h (by norm_num)), if_pos h]

theorem wrap32_large {n : Nat} (h1 : 2 ^ 31 ≤ n) (h2 : n < 2 ^ 32) :
    wrap32 n = (n : Int) - 2 ^ 32 := by
  unfold wrap32
  rw [Nat.mod_eq_of_lt h2, if_neg (Nat.not_lt.mpr h1)]

theorem wrap32_large_neg {n : Nat} (h1 : 2 ^ 31 ≤ n) (h2 : n < 2 ^ 32) :
    wrap32 n < 0 := by
  rw [wrap32_large h1 h2]
  have : (n : Int) < 2 ^ 32 := by exact_mod_cast h2
  omega

/-! ## C10 -/

/-- C10: for a batch number with raw `u32` value at least `2^31`,
`mark_witness_job_as_successful` leaves every row of
`witness_inputs_fri` unchanged, because its WHERE clause compares the
BIGINT `l1_batch_number` column (nonnegative, written by the `as i64`
encoding of `save_witness_inputs`) against the negative `as i32` wrap
of the batch number. -/
theorem mark_witness_successful_misses_large_batch
    (t : List WitnessRow) (b chain tt now : Nat)
    (hnn : ∀ r ∈ t, 0 ≤ r.l1Batch)
    (hb1 : 2 ^ 31 ≤ b) (hb2 : b < 2 ^ 32) :
    markWitnessJobAsSuccessful b chain tt now t = t := by
  unfold markWitnessJobAsSuccessful
  apply map_eq_self_of_forall
  intro r hr
  have hneg : wrap32 b < 0 := wrap32_large_neg hb1 hb2
  have hnr := hnn r hr
  rw [if_neg]
  rintro ⟨h1, -⟩
  omega

/-- C10 witness: a concrete in-progress row for batch 7 survives a
completion call for batch `2^31` untouched. -/
theorem mark_witness_successful_misses_large_batch_witness :
    markWitnessJobAsSuccessful (2 ^ 31) 1 5 9
      [{ l1Batch := 7, chainId := 1, blobUrl := "u",
         protocolVersion := 24, protocolVersionPatch := 0,
         status := .inProgress, attempts := 1, priority := 0,
         createdAt := 0, updatedAt := 0, processingStartedAt := some 0,
         pickedBy := some "w", timeTaken := none, errorMsg := none }] =
      [{ l1Batch := 7, chainId := 1, blobUrl := "u",
         protocolVersion := 24, protocolVersionPatch := 0,
         status := .inProgress, attempts := 1, priority := 0,
         createdAt := 0, updatedAt := 0, processingStartedAt := some 0,
         pickedBy := some "w", timeTaken := none, errorMsg := none }] :=
  mark_witness_successful_misses_large_batch _ _ _ _ _
    (by decide) (by norm_num) (by norm_num)

/-! ## C8 -/

/-- C8 counterexample: inserting a compression job for the same batch
number 5 under a different chain id (2 instead of 1) is a no-op — the
`ON CONFLICT (l1_batch_number) DO NOTHING` target ignores `chain_id` —
so the table keeps a single row where the claim requires a new one. -/
theorem insert_compression_other_chain_dropped_cex :
    insertProofCompressionJob 1 5 2 "u2" 24 0
        (insertProofCompressionJob 0 5 1 "u1" 24 0 []) =
      insertProofCompressionJob 0 5 1 "u1" 24 0 [] ∧
    (insertProofCompressionJob 0 5 1 "u1" 24 0 []).length = 1 := by
  constructor
  · decide
  · decide

/-- C8 amended: both inserts are idempotent no-ops on duplicates and
raise no error, but their dedupe keys differ — `save_witness_inputs`
conflicts on `(l1_batch_number, chain_id)` (a second chain for the same
batch creates a new row), while `insert_proof_compression_job`
conflicts on `l1_batch_number` alone (a second chain for the same batch
is also a no-op). -/
theorem insert_idempotency_amended :
    (∀ (t : List WitnessRow) (now b chain : Nat) (url : String) (minor patch : Nat),
      (∃ r ∈ t, r.l1Batch = (b : Int) ∧ r.chainId = wrap32 chain) →
      saveWitnessInputs now b chain url minor patch t = t) ∧
    (∀ (t : List WitnessRow) (now b chain : Nat) (url : String) (minor patch : Nat),
      (∀ r ∈ t, ¬(r.l1Batch = (b : Int) ∧ r.chainId = wrap32 chain)) →
      ∃ nr, saveWitnessInputs now b chain url minor patch t = t ++ [nr] ∧
        nr.l1Batch = (b : Int) ∧ nr.chainId = wrap32 chain ∧ nr.status = .queued) ∧
    (∀ (t : List CompressionRow) (now b chain : Nat) (url : String) (minor patch : Nat),
      (∃ r ∈ t, r.l1Batch = (b : Int)) →
      insertProofCompressionJob now b chain url minor patch t = t) ∧
    (∀ (t : List CompressionRow) (now b chain : Nat) (url : String) (minor patch : Nat),
      (∀ r ∈ t, r.l1Batch ≠ (b : Int)) →
      ∃ nr, insertProofCompressionJob now b chain url minor patch t = t ++ [nr] ∧
        nr.l1Batch = (b : Int) ∧ nr.chainId = wrap32 chain ∧ nr.status = .queued) := by
  refine ⟨?_, ?_, ?_, ?_⟩
  · intro t now b chain url minor patch hex
    unfold saveWitnessInputs
    rw [if_pos hex]
  · intro t now b chain url minor patch hno
    unfold saveWitnessInputs
    rw [if_neg (by rintro ⟨r, hr, h1, h2⟩; exact hno r hr ⟨h1, h2⟩)]
    exact ⟨_, rfl, rfl, rfl, rfl⟩
  · intro t now b chain url minor patch hex
    unfold insertProofCompressionJob
    rw [if_pos hex]
  · intro t now b chain url minor patch hno
    unfold insertProofCompressionJob
    rw [if_neg (by rintro ⟨r, hr, h1⟩; exact hno r hr h1)]
    exact ⟨_, rfl, rfl, rfl, rfl⟩

/-- C8 amended witness at concrete tables. -/
theorem insert_idempotency_amended_witness :
    saveWitnessInputs 3 5 1 "u" 24 0 [mkWitnessRow 5 1 .queued 0] =
      [mkWitnessRow 5 1 .queued 0] ∧
    (∃ nr, saveWitnessInputs 3 5 2 "u" 24 0 [mkWitnessRow 5 1 .queued 0] =
      [mkWitnessRow 5 1 .queued 0] ++ [nr] ∧ nr.l1Batch = (5 : Int) ∧
      nr.chainId = wrap32 2 ∧ nr.status = .queued) ∧
    insertProofCompressionJob 3 5 2 "u" 24 0 [mkCompressionRow 5 1 .queued 0] =
      [mkCompressionRow 5 1 .queued 0] ∧
    (∃ nr, insertProofCompressionJob 3 6 1 "u" 24 0 [mkCompressionRow 5 1 .queued 0] =
      [mkCompressionRow 5 1 .queued 0] ++ [nr] ∧ nr.l1Batch = (6 : Int) ∧
      nr.chainId = wrap32 1 ∧ nr.status = .queued) :=
  ⟨insert_idempotency_amended.1 _ _ _ _ _ _ _ (by decide),
   insert_idempotency_amended.2.1 _ _ _ _ _ _ _ (by decide),
   insert_idempotency_amended.2.2.1 _ _ _ _ _ _ _ (by decide),
   insert_idempotency_amended.2.2.2 _ _ _ _ _ _ _ (by decide)⟩

/-! ## C7 -/

/-- C7 counterexample: `mark_proof_compression_job_successful` has no
prior-status guard, so a second completion call against an
already-Successful job overwrites the recorded `time_taken`, blob url
and `updated_at` — the claimed promise that previously recorded audit
fields stay unchanged fails. -/
theorem complete_overwrites_audit_fields_cex :
    markProofCompressionJobSuccessful 5 1 20 "new" 9
        [{ mkCompressionRow 5 1 .successful 1 with
           timeTaken := some 10, l1ProofBlobUrl := some "old", updatedAt := 3 }] =
      [{ mkCompressionRow 5 1 .successful 1 with
         timeTaken := some 20, l1ProofBlobUrl := some "new", updatedAt := 9 }] ∧
    some (10 : Nat) ≠ some (20 : Nat) := by
  constructor
  · decide
  · decide

/-- C7 amended: `complete` transitions the matching job to `Successful`
and records its duration and output blob location unconditionally —
there is no prior-status guard, so a repeated call overwrites
`time_taken`, the blob url and `updated_at`; non-matching rows are
untouched.  The same holds for `mark_witness_job_as_successful`, whose
WHERE clause additionally casts the batch number with `as i32`. -/
theorem complete_unconditional_amended :
    (∀ (t : List CompressionRow) (b chain tt now : Nat) (url : String)
        (i : Nat) (r : CompressionRow), t.get? i = some r →
      r.l1Batch = (b : Int) → r.chainId = wrap32 chain →
      (markProofCompressionJobSuccessful b chain tt url now t).get? i =
        some { r with status := .successful, updatedAt := now,
                      timeTaken := some tt, l1ProofBlobUrl := some url }) ∧
    (∀ (t : List CompressionRow) (b chain tt now : Nat) (url : String)
        (i : Nat) (r : CompressionRow), t.get? i = some r →
      ¬(r.l1Batch = (b : Int) ∧ r.chainId = wrap32 chain) →
      (markProofCompressionJobSuccessful b chain tt url now t).get? i = some r) ∧
    (∀ (t : List WitnessRow) (b chain tt now : Nat)
        (i : Nat) (r : WitnessRow), t.get? i = some r →
      r.l1Batch = wrap32 b → r.chainId = wrap32 chain →
      (markWitnessJobAsSuccessful b chain tt now t).get? i =
        some { r with status := .successful, updatedAt := now,
                      timeTaken := some tt }) ∧
    (∀ (t : List WitnessRow) (b chain tt now : Nat)
        (i : Nat) (r : WitnessRow), t.get? i = some r →
      ¬(r.l1Batch = wrap32 b ∧ r.chainId = wrap32 chain) →
      (markWitnessJobAsSuccessful b chain tt now t).get? i = some r) := by
  refine ⟨?_, ?_, ?_, ?_⟩
  · intro t b chain tt now url i r hr h1 h2
    unfold markProofCompressionJobSuccessful
    rw [List.get?_map, hr, Option.map_some']
    rw [if_pos (show r.l1Batch = (b : Int) ∧ r.chainId = wrap32 chain from ⟨h1, h2⟩)]
  · intro t b chain tt now url i r hr hn
    unfold markProofCompressionJobSuccessful
    rw [List.get?_map, hr]
    simp [if_neg hn]
  · intro t b chain tt now i r hr h1 h2
    unfold markWitnessJobAsSuccessful
    rw [List.get?_map, hr, Option.map_some']
    rw [if_pos (show r.l1Batch = wrap32 b ∧ r.chainId = wrap32 chain from ⟨h1, h2⟩)]
  · intro t b chain tt now i r hr hn
    unfold markWitnessJobAsSuccessful
    rw [List.get?_map, hr]
    simp [if_neg hn]

/-- C7 amended witness at a concrete already-successful row and a
concrete non-matching row. -/
theorem complete_unconditional_amended_witness :
    (markProofCompressionJobSuccessful 5 1 20 "new" 9
        [mkCompressionRow 5 1 .successful 1]).get? 0 =
      some { mkCompressionRow 5 1 .successful 1 with
             status := .successful, updatedAt := 9,
             timeTaken := some 20, l1ProofBlobUrl := some "new" } ∧
    (markProofCompressionJobSuccessful 5 1 20 "new" 9
        [mkCompressionRow 7 1 .queued 0]).get? 0 =
      some (mkCompressionRow 7 1 .queued 0) ∧
    (markWitnessJobAsSuccessful 5 1 20 9
        [mkWitnessRow 5 1 .inProgress 1]).get? 0 =
      some { mkWitnessRow 5 1 .inProgress 1 with
             status := .successful, updatedAt := 9, timeTaken := some 20 } ∧
    (markWitnessJobAsSuccessful 5 1 20 9
        [mkWitnessRow 7 1 .inProgress 1]).get? 0 =
      some (mkWitnessRow 7 1 .inProgress 1) :=
  ⟨complete_unconditional_amended.1 _ _ _ _ _ _ _ _ (by decide) (by decide) (by decide),
   complete_unconditional_amended.2.1 _ _ _ _ _ _ _ _ (by decide) (by decide),
   complete_unconditional_amended.2.2.1 _ _ _ _ _ _ _ (by decide)
     (by decide) (by decide),
   complete_unconditional_amended.2.2.2 _ _ _ _ _ _ _ (by decide) (by decide)⟩

/-! ## C6 -/

/-- C6 counterexample: `set_status_for_basic_witness_job` guards only
against `status != successful`, so applying the Failed status to a
basic witness row whose status is SentToServer transitions it to
Failed — the claimed no-op guarantee for SentToServer fails on the
basic table. -/
theorem basic_fail_hits_sent_to_server_cex :
    setStatusForBasicWitnessJob .failed 5 1 7 [mkWitnessRow 5 1 .sentToServer 1] =
      [{ mkWitnessRow 5 1 .sentToServer 1 with status := .failed, updatedAt := 7 }] ∧
    JobStatus.failed ≠ JobStatus.sentToServer := by
  constructor
  · decide
  · decide

/-- C6 amended: for compression jobs `fail` is a no-op on `Successful`
and `SentToServer` rows and otherwise transitions to `Failed` recording
the error; for basic witness jobs `fail`
(`set_status_for_basic_witness_job` with Failed) is a no-op only on
`Successful` rows and never writes the error column. -/
theorem fail_terminal_protection_amended :
    (∀ (t : List CompressionRow) (err : String) (b chain now : Nat),
      (∀ r ∈ t, r.l1Batch = (b : Int) ∧ r.chainId = wrap32 chain →
        r.status = .successful ∨ r.status = .sentToServer) →
      markProofCompressionJobFailed err b chain now t = t) ∧
    (∀ (t : List CompressionRow) (err : String) (b chain now : Nat)
        (i : Nat) (r : CompressionRow), t.get? i = some r →
      r.l1Batch = (b : Int) → r.chainId = wrap32 chain →
      r.status ≠ .successful → r.status ≠ .sentToServer →
      (markProofCompressionJobFailed err b chain now t).get? i =
        some { r with status := .failed, errorMsg := some err, updatedAt := now }) ∧
    (∀ (t : List WitnessRow) (b chain now : Nat),
      (∀ r ∈ t, r.l1Batch = (b : Int) ∧ r.chainId = wrap32 chain →
        r.status = .successful) →
      setStatusForBasicWitnessJob .failed b chain now t = t) ∧
    (∀ (t : List WitnessRow) (st : JobStatus) (b chain now : Nat) (i : Nat),
      ((setStatusForBasicWitnessJob st b chain now t).get? i).map WitnessRow.errorMsg =
        (t.get? i).map WitnessRow.errorMsg) := by
  refine ⟨?_, ?_, ?_, ?_⟩
  · intro t err b chain now hterm
    unfold markProofCompressionJobFailed
    apply map_eq_self_of_forall
    intro r hr
    rw [if_neg]
    rintro ⟨h1, h2, h3, h4⟩
    rcases hterm r hr ⟨h1, h2⟩ with h | h
    · exact h3 h
    · exact h4 h
  · intro t err b chain now i r hr h1 h2 h3 h4
    unfold markProofCompressionJobFailed
    rw [List.get?_map, hr, Option.map_some']
    rw [if_pos (show r.l1Batch = (b : Int) ∧ r.chainId = wrap32 chain ∧
      r.status ≠ .successful ∧ r.status ≠ .sentToServer from ⟨h1, h2, h3, h4⟩)]
  · intro t b chain now hterm
    unfold setStatusForBasicWitnessJob
    apply map_eq_self_of_forall
    intro r hr
    rw [if_neg]
    rintro ⟨h1, h2, h3⟩
    exact h3 (hterm r hr ⟨h1, h2⟩)
  · intro t st b chain now i
    unfold setStatusForBasicWitnessJob
    rw [List.get?_map]
    cases t.get? i with
    | none => rfl
    | some r =>
      by_cases h : r.l1Batch = (b : Int) ∧ r.chainId = wrap32 chain ∧
          r.status ≠ .successful
      · simp [if_pos h]
      · simp [if_neg h]

/-- C6 amended witness at concrete rows. -/
theorem fail_terminal_protection_amended_witness :
    markProofCompressionJobFailed "e" 5 1 7 [mkCompressionRow 5 1 .sentToServer 1] =
      [mkCompressionRow 5 1 .sentToServer 1] ∧
    (markProofCompressionJobFailed "e" 5 1 7 [mkCompressionRow 5 1 .inProgress 1]).get? 0 =
      some { mkCompressionRow 5 1 .inProgress 1 with
             status := .failed, errorMsg := some "e", updatedAt := 7 } ∧
    setStatusForBasicWitnessJob .failed 5 1 7 [mkWitnessRow 5 1 .successful 1] =
      [mkWitnessRow 5 1 .successful 1] ∧
    ((setStatusForBasicWitnessJob .failed 5 1 7 [mkWitnessRow 5 1 .queued 1]).get? 0).map
        WitnessRow.errorMsg = ([mkWitnessRow 5 1 .queued 1].get? 0).map WitnessRow.errorMsg :=
  ⟨fail_terminal_protection_amended.1 _ _ _ _ _ (by decide),
   fail_terminal_protection_amended.2.1 _ _ _ _ _ _ _ (by decide) (by decide)
     (by decide) (by decide) (by decide),
   fail_terminal_protection_amended.2.2.1 _ _ _ _ (by decide),
   fail_terminal_protection_amended.2.2.2 _ _ _ _ _ _⟩

/-! ## Requeue characterizations -/

theorem requeueStuckBasicJobs_eq (timeout maxAtt now : Nat) (t : List WitnessRow) :
    requeueStuckBasicJobs timeout maxAtt now t =
      ((t.filter fun r => decide (wStuck timeout maxAtt now r)).map
          fun r => (r.l1Batch, r.chainId),
        t.map fun r => if wStuck timeout maxAtt now r then wRequeueUpdate now r else r) := by
  induction t with
  | nil => rfl
  | cons r rs ih =>
    rw [requeueStuckBasicJobs, ih]
    by_cases h : wStuck timeout maxAtt now r
    · simp [h]
    · simp [h]

theorem requeueStuckJobs_eq (timeout maxAtt now : Nat) (t : List CompressionRow) :
    requeueStuckJobs timeout maxAtt now t =
      ((t.filter fun r => decide (cStuck timeout maxAtt now r)).map
          fun r => (r.l1Batch, r.chainId),
        t.map fun r => if cStuck timeout maxAtt now r then cRequeueUpdate now r else r) := by
  induction t with
  | nil => rfl
  | cons r rs ih =>
    rw [requeueStuckJobs, ih]
    by_cases h : cStuck timeout maxAtt now r
    · simp [h]
    · simp [h]

theorem requeueStuckWitnessInputsJobsForBatch_eq (b chain maxAtt now : Nat)
    (t : List WitnessRow) :
    requeueStuckWitnessInputsJobsForBatch b chain maxAtt now t =
      ((t.filter fun r =>
          decide (manualStuck b chain maxAtt r.l1Batch r.chainId r.status r.attempts)).map
          fun r => (r.l1Batch, r.chainId),
        t.map fun r =>
          if manualStuck b chain maxAtt r.l1Batch r.chainId r.status r.attempts
          then wRequeueUpdate now r else r) := by
  induction t with
  | nil => rfl
  | cons r rs ih =>
    rw [requeueStuckWitnessInputsJobsForBatch, ih]
    by_cases h : manualStuck b chain maxAtt r.l1Batch r.chainId r.status r.attempts
    · simp only [manualStuck] at h
      simp [h, manualStuck]
    · simp only [manualStuck] at h
      simp [h, manualStuck]

theorem requeueStuckJobsForBatch_eq (b chain maxAtt now : Nat)
    (t : List CompressionRow) :
    requeueStuckJobsForBatch b chain maxAtt now t =
      ((t.filter fun r =>
          decide (manualStuck b chain maxAtt r.l1Batch r.chainId r.status r.attempts)).map
          fun r => (r.l1Batch, r.chainId),
        t.map fun r =>
          if manualStuck b chain maxAtt r.l1Batch r.chainId r.status r.attempts
          then { r with status := .queued, errorMsg := some "Manually requeued",
                        attempts := 2, updatedAt := now,
                        processingStartedAt := some now,
                        priority := r.priority + 1 }
          else r) := by
  induction t with
  | nil => rfl
  | cons r rs ih =>
    rw [requeueStuckJobsForBatch, ih]
    by_cases h : manualStuck b chain maxAtt r.l1Batch r.chainId r.status r.attempts
    · simp only [manualStuck] at h
      simp [h, manualStuck]
    · simp only [manualStuck] at h
      simp [h, manualStuck]

/-! ## C4 -/

/-- C4: for both tables, `requeue_stuck` resets to Queued exactly the
rows satisfying `(InProgress ∧ timed out ∧ attempts < max) ∨ (Failed ∧
attempts < max)`, bumps the priority of each reset row by one, returns
exactly the affected keys, and neither returns nor modifies any row
whose attempts are at or above `max_attempts`. -/
theorem requeue_stuck_reclamation_bound (timeout maxAtt now : Nat) :
    (∀ t : List WitnessRow,
      (requeueStuckBasicJobs timeout maxAtt now t).1 =
        (t.filter fun r => decide (wStuck timeout maxAtt now r)).map
          fun r => (r.l1Batch, r.chainId)) ∧
    (∀ (t : List WitnessRow) (i : Nat) (r : WitnessRow), t.get? i = some r →
      wStuck timeout maxAtt now r →
      (requeueStuckBasicJobs timeout maxAtt now t).2.get? i =
        some { r with status := .queued, updatedAt := now,
                      processingStartedAt := some now,
                      priority := r.priority + 1 }) ∧
    (∀ (t : List WitnessRow) (i : Nat) (r : WitnessRow), t.get? i = some r →
      ¬wStuck timeout maxAtt now r →
      (requeueStuckBasicJobs timeout maxAtt now t).2.get? i = some r) ∧
    (∀ (t : List WitnessRow) (k : Int × Int),
      k ∈ (requeueStuckBasicJobs timeout maxAtt now t).1 →
      ∃ r ∈ t, k = (r.l1Batch, r.chainId) ∧ r.attempts < maxAtt) ∧
    (∀ t : List CompressionRow,
      (requeueStuckJobs timeout maxAtt now t).1 =
        (t.filter fun r => decide (cStuck timeout maxAtt now r)).map
          fun r => (r.l1Batch, r.chainId)) ∧
    (∀ (t : List CompressionRow) (i : Nat) (r : CompressionRow), t.get? i = some r →
      cStuck timeout maxAtt now r →
      (requeueStuckJobs timeout maxAtt now t).2.get? i =
        some { r with status := .queued, updatedAt := now,
                      processingStartedAt := some now,
                      priority := r.priority + 1 }) ∧
    (∀ (t : List CompressionRow) (i : Nat) (r : CompressionRow), t.get? i = some r →
      ¬cStuck timeout maxAtt now r →
      (requeueStuckJobs timeout maxAtt now t).2.get? i = some r) ∧
    (∀ (t : List CompressionRow) (k : Int × Int),
      k ∈ (requeueStuckJobs timeout maxAtt now t).1 →
      ∃ r ∈ t, k = (r.l1Batch, r.chainId) ∧ r.attempts < maxAtt) := by
  refine ⟨?_, ?_, ?_, ?_, ?_, ?_, ?_, ?_⟩
  · intro t; rw [requeueStuckBasicJobs_eq]
  · intro t i r hr hs
    rw [requeueStuckBasicJobs_eq]
    simp only [List.get?_map, hr, Option.map_some']
    rw [if_pos hs]
    rfl
  · intro t i r hr hs
    rw [requeueStuckBasicJobs_eq]
    simp only [List.get?_map, hr, Option.map_some']
    rw [if_neg hs]
  · intro t k hk
    rw [requeueStuckBasicJobs_eq] at hk
    obtain ⟨r, hrf, hrk⟩ := List.mem_map.mp hk
    obtain ⟨hrt, hp⟩ := List.mem_filter.mp hrf
    refine ⟨r, hrt, hrk.symm, ?_⟩
    rcases of_decide_eq_true hp with ⟨-, -, h⟩ | ⟨-, h⟩ <;> exact h
  · intro t; rw [requeueStuckJobs_eq]
  · intro t i r hr hs
    rw [requeueStuckJobs_eq]
    simp only [List.get?_map, hr, Option.map_some']
    rw [if_pos hs]
    rfl
  · intro t i r hr hs
    rw [requeueStuckJobs_eq]
    simp only [List.get?_map, hr, Option.map_some']
    rw [if_neg hs]
  · intro t k hk
    rw [requeueStuckJobs_eq] at hk
    obtain ⟨r, hrf, hrk⟩ := List.mem_map.mp hk
    obtain ⟨hrt, hp⟩ := List.mem_filter.mp hrf
    refine ⟨r, hrt, hrk.symm, ?_⟩
    rcases of_decide_eq_true hp with ⟨-, -, h⟩ | ⟨-, h⟩ <;> exact h

/-- C4 witness: a timed-out in-progress row below max attempts is reset
with its priority bumped, and a failed row at max attempts is left
untouched. -/
theorem requeue_stuck_reclamation_bound_witness :
    (requeueStuckBasicJobs 10 3 20 [mkWitnessRow 5 1 .inProgress 1]).2.get? 0 =
      some { mkWitnessRow 5 1 .inProgress 1 with
             status := .queued, updatedAt := 20,
             processingStartedAt := some 20, priority := 1 } ∧
    (requeueStuckJobs 10 3 20 [mkCompressionRow 5 1 .failed 3]).2.get? 0 =
      some (mkCompressionRow 5 1 .failed 3) :=
  ⟨by
    have h := (requeue_stuck_reclamation_bound 10 3 20).2.1
      [mkWitnessRow 5 1 .inProgress 1] 0 (mkWitnessRow 5 1 .inProgress 1)
      (by decide) (by decide)
    simpa [mkWitnessRow] using h,
   by
    have h := (requeue_stuck_reclamation_bound 10 3 20).2.2.2.2.2.2.1
      [mkCompressionRow 5 1 .failed 3] 0 (mkCompressionRow 5 1 .failed 3)
      (by decide) (by decide)
    exact h⟩

/-! ## C2 -/

/-- C2 failing input, evaluated: two queued rows share
`l1_batch_number = 5` on different chains — chain 2 carries protocol
version 25.0 and sits first in the table, chain 1 carries 24.0.  A
claim for version 24.0 selects the chain-1 row in the subquery, but the
outer UPDATE matches on `l1_batch_number` alone, so it marks **both**
rows in-progress and `fetch_optional` returns the chain-2 key — the
worker claiming 24.0 receives the 25.0 job. -/
theorem get_next_basic_claims_wrong_chain_eval :
    getNextBasicJob 24 0 "w" 9
        [{ mkWitnessRow 5 2 .queued 0 with protocolVersion := 25 },
         mkWitnessRow 5 1 .queued 0] =
      (some (2, 5),
        [{ mkWitnessRow 5 2 .queued 0 with
           protocolVersion := 25, status := .inProgress, attempts := 1,
           updatedAt := 9, processingStartedAt := some 9, pickedBy := some "w" },
         { mkWitnessRow 5 1 .queued 0 with
           status := .inProgress, attempts := 1,
           updatedAt := 9, processingStartedAt := some 9, pickedBy := some "w" }]) ∧
    ({ mkWitnessRow 5 2 .queued 0 with protocolVersion := 25 } : WitnessRow).protocolVersion ≠
      wrap32 24 := by
  constructor
  · decide
  · decide

/-! ## C3 -/

theorem splitRecursionQueue_flatten_aux {α : Type} (size : Nat) (hs : size ≠ 0) :
    ∀ (n : Nat) (q : List α), q.length ≤ n →
      (splitRecursionQueue size q).flatten = q := by
  intro n
  induction n with
  | zero =>
    intro q hq
    have hq0 : q = [] := List.eq_nil_of_length_eq_zero (Nat.le_zero.mp hq)
    subst hq0
    simp [splitRecursionQueue]
  | succ n ih =>
    intro q hq
    match q with
    | [] => simp [splitRecursionQueue]
    | x :: xs =>
      rw [splitRecursionQueue, dif_neg hs, List.flatten_cons,
        ih ((x :: xs).drop size) ?_, List.take_append_drop]
      rw [List.length_drop]
      have hlen : (x :: xs).length ≤ n + 1 := hq
      have hpos : 0 < size := Nat.pos_of_ne_zero hs
      simp only [List.length_cons] at hlen ⊢
      omega

theorem splitRecursionQueue_flatten {α : Type} (size : Nat) (hs : size ≠ 0)
    (q : List α) : (splitRecursionQueue size q).flatten = q :=
  splitRecursionQueue_flatten_aux size hs q.length q le_rfl

theorem assignProofIds_lengths {α : Type} :
    ∀ (chunks : List (List α)) (ids : List Nat),
      (chunks.map List.length).sum ≤ ids.length →
      List.Forall₂ (fun (c : List α) (p : List Nat) => p.length = c.length)
        chunks (assignProofIds chunks ids) := by
  intro chunks
  induction chunks with
  | nil => intro ids _; exact List.Forall₂.nil
  | cons c cs ih =>
    intro ids h
    simp only [List.map_cons, List.sum_cons] at h
    refine List.Forall₂.cons ?_ (ih (ids.drop c.length) ?_)
    · rw [List.length_take]
      omega
    · rw [List.length_drop]
      omega

/-- C3: for a positive chunk size and a non-empty queue whose proof-id
list is long enough, the chunks produced by the tree builder cover the
queue exactly — their item counts sum to the queue length, their
concatenation restores the queue in order — and the assignment loop of
`LeafAggregation::process_job` hands each chunk exactly `num_items`
proof identifiers. -/
theorem chunk_item_count_integrity {α : Type} (size : Nat) (hs : 0 < size)
    (q : List α) (hq : q ≠ []) (ids : List Nat) (hlen : q.length ≤ ids.length) :
    ((splitRecursionQueue size q).map List.length).sum = q.length ∧
    (splitRecursionQueue size q).flatten = q ∧
    List.Forall₂ (fun (c : List α) (p : List Nat) => p.length = c.length)
      (splitRecursionQueue size q) (assignProofIds (splitRecursionQueue size q) ids) := by
  have hflat := splitRecursionQueue_flatten size (Nat.pos_iff_ne_zero.mp hs) q
  have hsum : ((splitRecursionQueue size q).map List.length).sum = q.length := by
    rw [← List.length_flatten, hflat]
  exact ⟨hsum, hflat, assignProofIds_lengths _ _ (by rw [hsum]; exact hlen)⟩

/-- C3 witness: a 7-item queue with chunk size 5 splits into chunks of
sizes 5 and 2 and the proof-identifier assignment matches. -/
theorem chunk_item_count_integrity_witness :
    ((splitRecursionQueue 5 [0, 1, 2, 3, 4, 5, 6]).map List.length).sum =
      [0, 1, 2, 3, 4, 5, 6].length ∧
    (splitRecursionQueue 5 [0, 1, 2, 3, 4, 5, 6]).flatten = [0, 1, 2, 3, 4, 5, 6] ∧
    List.Forall₂ (fun (c : List Nat) (p : List Nat) => p.length = c.length)
      (splitRecursionQueue 5 [0, 1, 2, 3, 4, 5, 6])
      (assignProofIds (splitRecursionQueue 5 [0, 1, 2, 3, 4, 5, 6])
        [10, 11, 12, 13, 14, 15, 16]) :=
  chunk_item_count_integrity 5 (by norm_num) [0, 1, 2, 3, 4, 5, 6] (by decide)
    [10, 11, 12, 13, 14, 15, 16] (by decide)

/-! ## C5 -/

theorem markSchedulerJobAsSuccessful_preserves (c' b' tt : Nat)
    (l : List SchedulerJobRow) (wr : SchedulerJobRow) (hwr : wr ∈ l)
    (hst : wr.status = .successful) :
    ∃ r ∈ markSchedulerJobAsSuccessful c' b' tt l,
      r.l1Batch = wr.l1Batch ∧ r.chainId = wr.chainId ∧ r.status = .successful := by
  refine ⟨_, List.mem_map_of_mem _ hwr, ?_⟩
  by_cases hk : wr.l1Batch = (b' : Int) ∧ wr.chainId = wrap32 c'
  · rw [if_pos hk]
    exact ⟨rfl, rfl, rfl⟩
  · rw [if_neg hk]
    exact ⟨rfl, rfl, hst⟩

theorem markSchedulerJobAsSuccessful_marks (c' b' tt : Nat)
    (l : List SchedulerJobRow) (wr : SchedulerJobRow) (hwr : wr ∈ l)
    (hk1 : wr.l1Batch = (b' : Int)) (hk2 : wr.chainId = wrap32 c') :
    ∃ r ∈ markSchedulerJobAsSuccessful c' b' tt l,
      r.l1Batch = (b' : Int) ∧ r.chainId = wrap32 c' ∧ r.status = .successful := by
  refine ⟨_, List.mem_map_of_mem _ hwr, ?_⟩
  rw [if_pos ⟨hk1, hk2⟩]
  exact ⟨hk1, hk2, rfl⟩

theorem claimProverAt_mem (i : Nat) (t : List ProverJobRow) (pr : ProverJobRow)
    (h : pr ∈ claimProverAt i t) (hst : pr.status = .queued) : pr ∈ t := by
  unfold claimProverAt at h
  split at h
  · split at h
    · rcases List.mem_or_eq_of_mem_set h with hin | heq2
      · exact hin
      · rw [heq2] at hst
        cases hst
    · exact h
  · exact h

theorem schedApply_inv (s : SchedulerState) (op : SchedOp)
    (h : schedInv s) : schedInv (schedApply s op) := by
  cases op with
  | finalize c' b' tt =>
    simp only [schedApply]
    by_cases hg : ∃ r ∈ s.schedulerJobs, r.l1Batch = (b' : Int) ∧ r.chainId = wrap32 c'
    · rw [if_pos hg]
      intro c b hcl
      obtain ⟨pr, hpr, hk1, hk2, hst⟩ := hcl
      simp only [schedulerSaveToDatabase, schedulerSaveToBucket] at hpr ⊢
      unfold insertProverJob at hpr
      by_cases hex : ∃ r ∈ s.proverJobs, r.l1Batch = (b' : Int) ∧
          r.chainId = wrap32 c' ∧ r.circuitId = schedulerCircuitId ∧
          r.aggregationRound = schedulerRound
      · rw [if_pos hex] at hpr
        obtain ⟨wr, hwr, hw1, hw2, hw3⟩ := h c b ⟨pr, hpr, hk1, hk2, hst⟩
        obtain ⟨r', hr', h1, h2, h3⟩ :=
          markSchedulerJobAsSuccessful_preserves c' b' tt s.schedulerJobs wr hwr hw3
        exact ⟨r', hr', h1.trans hw1, h2.trans hw2, h3⟩
      · rw [if_neg hex] at hpr
        rcases List.mem_append.mp hpr with hin | hnew
        · obtain ⟨wr, hwr, hw1, hw2, hw3⟩ := h c b ⟨pr, hin, hk1, hk2, hst⟩
          obtain ⟨r', hr', h1, h2, h3⟩ :=
            markSchedulerJobAsSuccessful_preserves c' b' tt s.schedulerJobs wr hwr hw3
          exact ⟨r', hr', h1.trans hw1, h2.trans hw2, h3⟩
        · have hpr' := List.mem_singleton.mp hnew
          obtain ⟨wr0, hwr0, hg1, hg2⟩ := hg
          have hb : ((b' : Int)) = (b : Int) := by rw [← hk1, hpr']
          have hc : wrap32 c' = wrap32 c := by rw [← hk2, hpr']
          obtain ⟨r', hr', h1, h2, h3⟩ :=
            markSchedulerJobAsSuccessful_marks c' b' tt s.schedulerJobs wr0 hwr0 hg1 hg2
          exact ⟨r', hr', h1.trans hb, h2.trans hc, h3⟩
    · rw [if_neg hg]
      exact h
  | crashAfterBucket c' b' =>
    intro c b hcl
    obtain ⟨pr, hpr, hk1, hk2, hst⟩ := hcl
    exact h c b ⟨pr, hpr, hk1, hk2, hst⟩
  | claimProver i picked =>
    intro c b hcl
    obtain ⟨pr, hpr, hk1, hk2, hst⟩ := hcl
    simp only [schedApply] at hpr
    exact h c b ⟨pr, claimProverAt_mem i s.proverJobs pr hpr hst, hk1, hk2, hst⟩

theorem schedRun_inv (ops : List SchedOp) (s : SchedulerState)
    (h : schedInv s) : schedInv (schedRun ops s) := by
  induction ops generalizing s with
  | nil => exact h
  | cons op rest ih => exact ih (schedApply s op) (schedApply_inv s op h)

/-- C5: starting from any scheduler witness table and an empty
next-round prover table, after any sequence of finalize events, crashes
between the artifact write and the database transaction, and next-round
claim attempts, a next-round prover job for a batch is claimable only
if the scheduler witness job of that batch is `successful` — the
single-transaction coupling of `insert_prover_job` and
`mark_scheduler_job_as_successful` in `Scheduler::save_to_database`
never exposes a claimable next-round job ahead of the completion
write. -/
theorem no_premature_next_round_visibility
    (wjobs : List SchedulerJobRow) (ops : List SchedOp) (chain b : Nat)
    (hcl : proverClaimable (schedRun ops ⟨wjobs, [], []⟩) chain b) :
    ∃ r ∈ (schedRun ops ⟨wjobs, [], []⟩).schedulerJobs,
      r.l1Batch = (b : Int) ∧ r.chainId = wrap32 chain ∧ r.status = .successful := by
  refine schedRun_inv ops ⟨wjobs, [], []⟩ ?_ chain b hcl
  intro c b' hcl0
  obtain ⟨pr, hpr, -⟩ := hcl0
  exact absurd hpr (List.not_mem_nil pr)

/-- C5 witness: one finalize event for batch 5 on chain 1 makes the
next-round job claimable and the scheduler job successful. -/
theorem no_premature_next_round_visibility_witness :
    proverClaimable
      (schedRun [.finalize 1 5 3]
        ⟨[{ l1Batch := 5, chainId := 1, status := .inProgress, timeTaken := none }],
          [], []⟩) 1 5 ∧
    ∃ r ∈ (schedRun [.finalize 1 5 3]
        ⟨[{ l1Batch := 5, chainId := 1, status := .inProgress, timeTaken := none }],
          [], []⟩).schedulerJobs,
      r.l1Batch = (5 : Int) ∧ r.chainId = wrap32 1 ∧ r.status = .successful :=
  ⟨by decide, no_premature_next_round_visibility _ _ _ _ (by decide)⟩

/-! ## C1 -/

theorem head?_filter_prop {α : Type} (p : α → Bool) (l : List α) (x : α)
    (h : (l.filter p).head? = some x) : p x := by
  have hx : x ∈ l.filter p := by
    cases hl : l.filter p with
    | nil => rw [hl] at h; cases h
    | cons a as =>
      rw [hl] at h
      injection h with h'
      rw [← h']
      exact List.mem_cons_self a as
  exact (List.mem_filter.mp hx).2

theorem selectBasic_mem (minor patch : Nat) :
    ∀ (t : List WitnessRow) (b : WitnessRow), selectBasic minor patch t = some b →
      b ∈ t ∧ b.status = .queued := by
  intro t
  induction t with
  | nil => intro b h; cases h
  | cons r rs ih =>
    intro b h
    rw [selectBasic] at h
    by_cases he : wEligible minor patch r
    · rw [if_pos he] at h
      cases hsel : selectBasic minor patch rs with
      | none =>
        rw [hsel] at h
        simp only at h
        injection h with h'
        rw [← h']
        exact ⟨List.mem_cons_self r rs, he.1⟩
      | some b0 =>
        rw [hsel] at h
        simp only at h
        by_cases hp : wPrecedes b0 r
        · rw [if_pos hp] at h
          injection h with h'
          obtain ⟨hm, hs⟩ := ih b0 hsel
          rw [← h']
          exact ⟨List.mem_cons_of_mem r hm, hs⟩
        · rw [if_neg hp] at h
          injection h with h'
          rw [← h']
          exact ⟨List.mem_cons_self r rs, he.1⟩
    · rw [if_neg he] at h
      obtain ⟨hm, hs⟩ := ih b h
      exact ⟨List.mem_cons_of_mem r hm, hs⟩

/-- After a successful basic claim returning key `k`, no row with
the batch number of `k` is left queued. -/
theorem getNextBasicJob_post (minor patch : Nat) (picked : String) (now : Nat)
    (t : List WitnessRow) (k : Int × Int)
    (h : (getNextBasicJob minor patch picked now t).1 = some k) :
    ∀ r' ∈ (getNextBasicJob minor patch picked now t).2,
      r'.l1Batch = k.2 → r'.status ≠ .queued := by
  cases hsel : selectBasic minor patch t with
  | none =>
    rw [getNextBasicJob, hsel] at h
    simp only at h
    cases h
  | some b =>
    rw [getNextBasicJob, hsel] at h ⊢
    simp only at h ⊢
    simp only [Option.map_eq_some'] at h
    obtain ⟨hr, hhd, hk⟩ := h
    have hpb : (fun r : WitnessRow => decide (r.l1Batch = b.l1Batch)) hr = true :=
      head?_filter_prop (fun r : WitnessRow => decide (r.l1Batch = b.l1Batch)) _ hr hhd
    have hk2 : k.2 = b.l1Batch := by
      rw [← hk]
      exact of_decide_eq_true hpb
    intro r' hr' hb' hq
    obtain ⟨r, hrt, hfr⟩ := List.mem_map.mp hr'
    by_cases hc : r.l1Batch = b.l1Batch
    · rw [if_pos hc] at hfr
      rw [← hfr] at hq
      cases hq
    · rw [if_neg hc] at hfr
      rw [← hfr] at hb'
      exact hc (hb'.trans hk2)

/-- A basic claim neither revives nor returns a batch that has no
queued row. -/
theorem getNextBasicJob_preserve (minor patch : Nat) (picked : String) (now : Nat)
    (t : List WitnessRow) (B : Int)
    (hB : ∀ r ∈ t, r.l1Batch = B → r.status ≠ .queued) :
    (∀ r' ∈ (getNextBasicJob minor patch picked now t).2,
      r'.l1Batch = B → r'.status ≠ .queued) ∧
    (∀ k, (getNextBasicJob minor patch picked now t).1 = some k → k.2 ≠ B) := by
  cases hsel : selectBasic minor patch t with
  | none =>
    rw [getNextBasicJob, hsel]
    simp only
    exact ⟨hB, fun k hk => by cases hk⟩
  | some b =>
    have hbB : b.l1Batch ≠ B := by
      intro hEq
      obtain ⟨hm, hs⟩ := selectBasic_mem minor patch t b hsel
      exact hB b hm hEq hs
    rw [getNextBasicJob, hsel]
    simp only
    constructor
    · intro r' hr' hb' hq
      obtain ⟨r, hrt, hfr⟩ := List.mem_map.mp hr'
      by_cases hc : r.l1Batch = b.l1Batch
      · rw [if_pos hc] at hfr
        rw [← hfr] at hq
        cases hq
      · rw [if_neg hc] at hfr
        rw [← hfr] at hb' hq
        exact hB r hrt hb' hq
    · intro k hk hkB
      simp only [Option.map_eq_some'] at hk
      obtain ⟨hr, hhd, hkk⟩ := hk
      have hpb := of_decide_eq_true
        (head?_filter_prop (fun r : WitnessRow => decide (r.l1Batch = b.l1Batch)) _ hr hhd)
      rw [← hkk] at hkB
      exact hbB (hpb ▸ hkB)

/-- Along a trace of basic claims, a batch with no queued rows is never
returned. -/
theorem runBasicClaims_no_revival (B : Int) :
    ∀ (ops : List (Nat × Nat × String × Nat)) (t : List WitnessRow),
      (∀ r ∈ t, r.l1Batch = B → r.status ≠ .queued) →
      ∀ k ∈ (runBasicClaims ops t).1, k.2 ≠ B := by
  intro ops
  induction ops with
  | nil => intro t _ k hk; cases hk
  | cons op rest ih =>
    obtain ⟨m, p, pk, now⟩ := op
    intro t hB k hk
    obtain ⟨hpre, hres⟩ := getNextBasicJob_preserve m p pk now t B hB
    rcases hE : getNextBasicJob m p pk now t with ⟨res, t₁⟩
    rw [hE] at hpre hres
    simp only [runBasicClaims, hE] at hk
    rcases hR : runBasicClaims rest t₁ with ⟨ks, t₂⟩
    rw [hR] at hk
    have htail : ∀ k' ∈ ks, k'.2 ≠ B := by
      intro k' hk'
      have := ih t₁ hpre k'
      rw [hR] at this
      exact this hk'
    cases res with
    | none => exact htail k hk
    | some k0 =>
      rcases List.mem_cons.mp hk with hk0 | hks
      · rw [hk0]
        exact hres k0 rfl
      · exact htail k hks

/-- The analogous facts for the compression table, keyed on the
`(chain_id, l1_batch_number)` pair. -/
theorem selectCompression_mem (minor patch : Nat) :
    ∀ (t : List CompressionRow) (b : CompressionRow),
      selectCompression minor patch t = some b → b ∈ t ∧ b.status = .queued := by
  intro t
  induction t with
  | nil => intro b h; cases h
  | cons r rs ih =>
    intro b h
    rw [selectCompression] at h
    by_cases he : cEligible minor patch r
    · rw [if_pos he] at h
      cases hsel : selectCompression minor patch rs with
      | none =>
        rw [hsel] at h
        simp only at h
        injection h with h'
        rw [← h']
        exact ⟨List.mem_cons_self r rs, he.1⟩
      | some b0 =>
        rw [hsel] at h
        simp only at h
        by_cases hp : cPrecedes b0 r
        · rw [if_pos hp] at h
          injection h with h'
          obtain ⟨hm, hs⟩ := ih b0 hsel
          rw [← h']
          exact ⟨List.mem_cons_of_mem r hm, hs⟩
        · rw [if_neg hp] at h
          injection h with h'
          rw [← h']
          exact ⟨List.mem_cons_self r rs, he.1⟩
    · rw [if_neg he] at h
      obtain ⟨hm, hs⟩ := ih b h
      exact ⟨List.mem_cons_of_mem r hm, hs⟩

theorem getNextCompressionJob_post (minor patch : Nat) (picked : String) (now : Nat)
    (t : List CompressionRow) (k : Int × Int)
    (h : (getNextCompressionJob minor patch picked now t).1 = some k) :
    ∀ r' ∈ (getNextCompressionJob minor patch picked now t).2,
      r'.chainId = k.1 → r'.l1Batch = k.2 → r'.status ≠ .queued := by
  cases hsel : selectCompression minor patch t with
  | none =>
    rw [getNextCompressionJob, hsel] at h
    simp only at h
    cases h
  | some b =>
    rw [getNextCompressionJob, hsel] at h ⊢
    simp only at h ⊢
    simp only [Option.map_eq_some'] at h
    obtain ⟨hr, hhd, hk⟩ := h
    obtain ⟨hpb1, hpb2⟩ := of_decide_eq_true
      (head?_filter_prop
        (fun r : CompressionRow => decide (r.l1Batch = b.l1Batch ∧ r.chainId = b.chainId))
        _ hr hhd)
    have hk1 : k.1 = b.chainId := by rw [← hk]; exact hpb2
    have hk2 : k.2 = b.l1Batch := by rw [← hk]; exact hpb1
    intro r' hr' hc' hb' hq
    obtain ⟨r, hrt, hfr⟩ := List.mem_map.mp hr'
    by_cases hc : r.l1Batch = b.l1Batch ∧ r.chainId = b.chainId
    · rw [if_pos hc] at hfr
      rw [← hfr] at hq
      cases hq
    · rw [if_neg hc] at hfr
      rw [← hfr] at hb' hc'
      exact hc ⟨hb'.trans hk2, hc'.trans hk1⟩

theorem getNextCompressionJob_preserve (minor patch : Nat) (picked : String)
    (now : Nat) (t : List CompressionRow) (C B : Int)
    (hB : ∀ r ∈ t, r.chainId = C → r.l1Batch = B → r.status ≠ .queued) :
    (∀ r' ∈ (getNextCompressionJob minor patch picked now t).2,
      r'.chainId = C → r'.l1Batch = B → r'.status ≠ .queued) ∧
    (∀ k, (getNextCompressionJob minor patch picked now t).1 = some k →
      k ≠ (C, B)) := by
  cases hsel : selectCompression minor patch t with
  | none =>
    rw [getNextCompressionJob, hsel]
    simp only
    exact ⟨hB, fun k hk => by cases hk⟩
  | some b =>
    have hbB : ¬(b.chainId = C ∧ b.l1Batch = B) := by
      rintro ⟨hc, hb⟩
      obtain ⟨hm, hs⟩ := selectCompression_mem minor patch t b hsel
      exact hB b hm hc hb hs
    rw [getNextCompressionJob, hsel]
    simp only
    constructor
    · intro r' hr' hc' hb' hq
      obtain ⟨r, hrt, hfr⟩ := List.mem_map.mp hr'
      by_cases hc : r.l1Batch = b.l1Batch ∧ r.chainId = b.chainId
      · rw [if_pos hc] at hfr
        rw [← hfr] at hq
        cases hq
      · rw [if_neg hc] at hfr
        rw [← hfr] at hb' hc' hq
        exact hB r hrt hc' hb' hq
    · intro k hk hkCB
      simp only [Option.map_eq_some'] at hk
      obtain ⟨hr, hhd, hkk⟩ := hk
      obtain ⟨hpb1, hpb2⟩ := of_decide_eq_true
        (head?_filter_prop
          (fun r : CompressionRow => decide (r.l1Batch = b.l1Batch ∧ r.chainId = b.chainId))
          _ hr hhd)
      rw [hkCB] at hkk
      have h1 : hr.chainId = C := congrArg Prod.fst hkk
      have h2 : hr.l1Batch = B := congrArg Prod.snd hkk
      exact hbB ⟨hpb2 ▸ h1, hpb1 ▸ h2⟩

theorem runCompressionClaims_no_revival (C B : Int) :
    ∀ (ops : List (Nat × Nat × String × Nat)) (t : List CompressionRow),
      (∀ r ∈ t, r.chainId = C → r.l1Batch = B → r.status ≠ .queued) →
      ∀ k ∈ (runCompressionClaims ops t).1, k ≠ (C, B) := by
  intro ops
  induction ops with
  | nil => intro t _ k hk; cases hk
  | cons op rest ih =>
    obtain ⟨m, p, pk, now⟩ := op
    intro t hB k hk
    obtain ⟨hpre, hres⟩ := getNextCompressionJob_preserve m p pk now t C B hB
    rcases hE : getNextCompressionJob m p pk now t with ⟨res, t₁⟩
    rw [hE] at hpre hres
    simp only [runCompressionClaims, hE] at hk
    rcases hR : runCompressionClaims rest t₁ with ⟨ks, t₂⟩
    rw [hR] at hk
    have htail : ∀ k' ∈ ks, k' ≠ (C, B) := by
      intro k' hk'
      have := ih t₁ hpre k'
      rw [hR] at this
      exact this hk'
    cases res with
    | none => exact htail k hk
    | some k0 =>
      rcases List.mem_cons.mp hk with hk0 | hks
      · rw [hk0]
        exact hres k0 rfl
      · exact htail k hks

/-- C1: regardless of the initial table contents, a sequence of claim
calls — each a single atomic `UPDATE ... WHERE key = (SELECT ... FOR
UPDATE SKIP LOCKED)` statement, so concurrent callers serialize — never
returns the same job key twice, for both
`get_next_basic_circuit_witness_job` and
`get_next_proof_compression_job`. -/
theorem claim_keys_never_duplicated :
    (∀ (ops : List (Nat × Nat × String × Nat)) (t : List WitnessRow),
      (runBasicClaims ops t).1.Nodup) ∧
    (∀ (ops : List (Nat × Nat × String × Nat)) (t : List CompressionRow),
      (runCompressionClaims ops t).1.Nodup) := by
  constructor
  · intro ops
    induction ops with
    | nil => intro t; exact List.nodup_nil
    | cons op rest ih =>
      obtain ⟨m, p, pk, now⟩ := op
      intro t
      rcases hE : getNextBasicJob m p pk now t with ⟨res, t₁⟩
      simp only [runBasicClaims, hE]
      rcases hR : runBasicClaims rest t₁ with ⟨ks, t₂⟩
      have hksnd : ks.Nodup := by
        have := ih t₁
        rw [hR] at this
        exact this
      cases res with
      | none => exact hksnd
      | some k =>
        refine List.nodup_cons.mpr ⟨?_, hksnd⟩
        intro hkmem
        have hpost := getNextBasicJob_post m p pk now t k (by rw [hE])
        rw [hE] at hpost
        have hnot := runBasicClaims_no_revival k.2 rest t₁ hpost k
        rw [hR] at hnot
        exact hnot hkmem rfl
  · intro ops
    induction ops with
    | nil => intro t; exact List.nodup_nil
    | cons op rest ih =>
      obtain ⟨m, p, pk, now⟩ := op
      intro t
      rcases hE : getNextCompressionJob m p pk now t with ⟨res, t₁⟩
      simp only [runCompressionClaims, hE]
      rcases hR : runCompressionClaims rest t₁ with ⟨ks, t₂⟩
      have hksnd : ks.Nodup := by
        have := ih t₁
        rw [hR] at this
        exact this
      cases res with
      | none => exact hksnd
      | some k =>
        refine List.nodup_cons.mpr ⟨?_, hksnd⟩
        intro hkmem
        have hpost := getNextCompressionJob_post m p pk now t k (by rw [hE])
        rw [hE] at hpost
        have hnot := runCompressionClaims_no_revival k.1 k.2 rest t₁ hpost k
        rw [hR] at hnot
        exact hnot hkmem rfl

/-! ## C9 -/

/-- When a compression claim returns key `k`, the table update is
exactly: increment `attempts` (and claim-stamp) on the rows matching
`k`, leave every other row untouched. -/
theorem getNextCompressionJob_some_update (m p : Nat) (pk : String) (now : Nat)
    (t : List CompressionRow) (k : Int × Int)
    (h : (getNextCompressionJob m p pk now t).1 = some k) :
    (getNextCompressionJob m p pk now t).2 =
      t.map fun r =>
        if r.l1Batch = k.2 ∧ r.chainId = k.1 then cClaimUpdate pk now r else r := by
  cases hsel : selectCompression m p t with
  | none =>
    rw [getNextCompressionJob, hsel] at h
    simp only at h
    cases h
  | some b =>
    rw [getNextCompressionJob, hsel] at h ⊢
    simp only at h ⊢
    simp only [Option.map_eq_some'] at h
    obtain ⟨hr, hhd, hkk⟩ := h
    obtain ⟨hpb1, hpb2⟩ := of_decide_eq_true
      (head?_filter_prop
        (fun r : CompressionRow => decide (r.l1Batch = b.l1Batch ∧ r.chainId = b.chainId))
        _ hr hhd)
    have hk1 : k.1 = b.chainId := by rw [← hkk]; exact hpb2
    have hk2 : k.2 = b.l1Batch := by rw [← hkk]; exact hpb1
    rw [hk1, hk2]

/-- A compression claim that returns nothing leaves the table
untouched. -/
theorem getNextCompressionJob_none_id (m p : Nat) (pk : String) (now : Nat)
    (t : List CompressionRow)
    (h : (getNextCompressionJob m p pk now t).1 = none) :
    (getNextCompressionJob m p pk now t).2 = t := by
  cases hsel : selectCompression m p t with
  | none =>
    rw [getNextCompressionJob, hsel]
  | some b =>
    exfalso
    rw [getNextCompressionJob, hsel] at h
    simp only at h
    have hhd := List.head?_eq_none_iff.mp (Option.map_eq_none'.mp h)
    have hb := (selectCompression_mem m p t b hsel).1
    have hmem : (if b.l1Batch = b.l1Batch ∧ b.chainId = b.chainId
        then cClaimUpdate pk now b else b) ∈
        t.map fun r => if r.l1Batch = b.l1Batch ∧ r.chainId = b.chainId
          then cClaimUpdate pk now r else r :=
      List.mem_map_of_mem _ hb
    rw [if_pos ⟨rfl, rfl⟩] at hmem
    have := List.filter_eq_nil.mp hhd _ hmem
    simp [cClaimUpdate] at this

/-- Pointwise effect of one claim / sweep step on `attempts`: each row
keeps its counter or gains exactly one. -/
theorem compStep_attempts (op : CompOp) (t : List CompressionRow) (i : Nat) :
    ((compStep t op).get? i).map CompressionRow.attempts =
      (t.get? i).map CompressionRow.attempts ∨
    ((compStep t op).get? i).map CompressionRow.attempts =
      ((t.get? i).map CompressionRow.attempts).map (fun a => a + 1) := by
  cases op with
  | claim m p pk now =>
    simp only [compStep]
    cases hres : (getNextCompressionJob m p pk now t).1 with
    | none =>
      left
      rw [getNextCompressionJob_none_id m p pk now t hres]
    | some k =>
      rw [getNextCompressionJob_some_update m p pk now t k hres, List.get?_map]
      cases t.get? i with
      | none => left; rfl
      | some r =>
        by_cases hc : r.l1Batch = k.2 ∧ r.chainId = k.1
        · right
          rw [Option.map_some', Option.map_some', Option.map_some', if_pos hc]
          rfl
        · left
          rw [Option.map_some', Option.map_some', if_neg hc]
          rfl
  | sweep timeout maxAtt now =>
    left
    simp only [compStep]
    rw [requeueStuckJobs_eq, List.get?_map]
    cases t.get? i with
    | none => rfl
    | some r =>
      by_cases hc : cStuck timeout maxAtt now r
      · rw [Option.map_some', Option.map_some', if_pos hc]
        rfl
      · rw [Option.map_some', Option.map_some', if_neg hc]
        rfl

/-- Attempts are monotone along any trace of claims and sweeps. -/
theorem runCompOps_attempts_mono :
    ∀ (ops : List CompOp) (t : List CompressionRow) (i : Nat)
      (r r' : CompressionRow), t.get? i = some r →
      (runCompOps ops t).get? i = some r' → r.attempts ≤ r'.attempts := by
  intro ops
  induction ops with
  | nil =>
    intro t i r r' hr hr'
    simp only [runCompOps, List.foldl_nil] at hr'
    rw [hr] at hr'
    injection hr' with h
    rw [h]
  | cons op rest ih =>
    intro t i r r' hr hr'
    have hstep := compStep_attempts op t i
    rw [hr] at hstep
    have hrun : (runCompOps rest (compStep t op)).get? i = some r' := hr'
    rcases hstep with h1 | h1
    · obtain ⟨r₁, hr₁, ha₁⟩ := Option.map_eq_some'.mp h1
      have := ih (compStep t op) i r₁ r' hr₁ hrun
      omega
    · obtain ⟨r₁, hr₁, ha₁⟩ := Option.map_eq_some'.mp h1
      have := ih (compStep t op) i r₁ r' hr₁ hrun
      simp only [Option.map_some'] at ha₁
      omega

/-- C9 counterexample: a compression job with `attempts = 5` at or
above `max_attempts = 3` is manually requeued and its attempts counter
is **set to 2** — it decreases, and no claim was issued. -/
theorem manual_requeue_decreases_attempts_cex :
    (requeueStuckJobsForBatch 5 1 3 9 [mkCompressionRow 5 1 .failed 5]).2 =
      [{ mkCompressionRow 5 1 .failed 5 with
         status := .queued, errorMsg := some "Manually requeued", attempts := 2,
         updatedAt := 9, processingStartedAt := some 9, priority := 1 }] ∧
    (2 : Nat) < 5 := by
  constructor
  · decide
  · decide

/-- C9 amended: under any sequence of claims and automatic
`requeue_stuck` sweeps, `attempts` never decreases — each claim adds
exactly one to the rows matching the claimed key and leaves the rest
alone, and a sweep never touches `attempts` — but the compression
per-batch **manual** requeue instead sets attempts of the requeued rows
to the constant 2 (and leaves non-matching rows alone), which can
decrease the counter and break the attempts-equals-claims count. -/
theorem attempts_accounting_amended :
    (∀ (ops : List CompOp) (t : List CompressionRow) (i : Nat)
      (r r' : CompressionRow), t.get? i = some r →
      (runCompOps ops t).get? i = some r' → r.attempts ≤ r'.attempts) ∧
    (∀ (m p : Nat) (pk : String) (now : Nat) (t : List CompressionRow)
      (k : Int × Int), (getNextCompressionJob m p pk now t).1 = some k →
      ∀ (i : Nat) (r : CompressionRow), t.get? i = some r →
      ((r.l1Batch = k.2 ∧ r.chainId = k.1 →
        ((getNextCompressionJob m p pk now t).2.get? i).map CompressionRow.attempts =
          some (r.attempts + 1)) ∧
       (¬(r.l1Batch = k.2 ∧ r.chainId = k.1) →
        (getNextCompressionJob m p pk now t).2.get? i = some r))) ∧
    (∀ (m p : Nat) (pk : String) (now : Nat) (t : List CompressionRow),
      (getNextCompressionJob m p pk now t).1 = none →
      (getNextCompressionJob m p pk now t).2 = t) ∧
    (∀ (timeout maxAtt now : Nat) (t : List CompressionRow) (i : Nat),
      ((requeueStuckJobs timeout maxAtt now t).2.get? i).map CompressionRow.attempts =
        (t.get? i).map CompressionRow.attempts) ∧
    (∀ (b chain maxAtt now : Nat) (t : List CompressionRow) (i : Nat)
      (r : CompressionRow), t.get? i = some r →
      ((manualStuck b chain maxAtt r.l1Batch r.chainId r.status r.attempts →
        ((requeueStuckJobsForBatch b chain maxAtt now t).2.get? i).map
          CompressionRow.attempts = some 2) ∧
       (¬manualStuck b chain maxAtt r.l1Batch r.chainId r.status r.attempts →
        (requeueStuckJobsForBatch b chain maxAtt now t).2.get? i = some r))) := by
  refine ⟨runCompOps_attempts_mono, ?_, getNextCompressionJob_none_id, ?_, ?_⟩
  · intro m p pk now t k hk i r hr
    rw [getNextCompressionJob_some_update m p pk now t k hk, List.get?_map, hr,
      Option.map_some']
    constructor
    · intro hc
      rw [if_pos hc]
      rfl
    · intro hc
      rw [if_neg hc]
  · intro timeout maxAtt now t i
    rw [requeueStuckJobs_eq, List.get?_map]
    cases t.get? i with
    | none => rfl
    | some r =>
      by_cases hc : cStuck timeout maxAtt now r
      · rw [Option.map_some', Option.map_some', if_pos hc]
        rfl
      · rw [Option.map_some', Option.map_some', if_neg hc]
        rfl
  · intro b chain maxAtt now t i r hr
    rw [requeueStuckJobsForBatch_eq, List.get?_map, hr, Option.map_some']
    constructor
    · intro hc
      rw [if_pos hc]
      rfl
    · intro hc
      rw [if_neg hc]

/-- C9 amended witness at concrete tables: one claim takes attempts
from 0 to 1 monotonically, and one manual requeue sets attempts of a
5-attempt row to 2. -/
theorem attempts_accounting_amended_witness :
    (mkCompressionRow 5 1 .queued 0).attempts ≤
      (cClaimUpdate "w" 9 (mkCompressionRow 5 1 .queued 0)).attempts ∧
    ((getNextCompressionJob 24 0 "w" 9 [mkCompressionRow 5 1 .queued 0]).2.get? 0).map
        CompressionRow.attempts = some ((mkCompressionRow 5 1 .queued 0).attempts + 1) ∧
    ((requeueStuckJobsForBatch 5 1 3 9 [mkCompressionRow 5 1 .failed 5]).2.get? 0).map
        CompressionRow.attempts = some 2 :=
  ⟨runCompOps_attempts_mono [.claim 24 0 "w" 9] [mkCompressionRow 5 1 .queued 0] 0
      (mkCompressionRow 5 1 .queued 0) (cClaimUpdate "w" 9 (mkCompressionRow 5 1 .queued 0))
      (by decide) (by decide),
   ((attempts_accounting_amended.2.1 24 0 "w" 9 [mkCompressionRow 5 1 .queued 0]
      (1, 5) (by decide) 0 (mkCompressionRow 5 1 .queued 0) (by decide)).1 (by decide)),
   ((attempts_accounting_amended.2.2.2.2 5 1 3 9 [mkCompressionRow 5 1 .failed 5] 0
      (mkCompressionRow 5 1 .failed 5) (by decide)).1 (by decide))⟩

end ZkProver
